import Mathlib

/-!
Verification development for the turn-orchestration core of the
`gemini_cli_thinkai` client (TypeScript).  The definitions below are a shallow
embedding of the functions in
`packages/core/src/core/thinkAIChat.ts`,
`packages/core/src/core/thinkAIClient.ts` and
`packages/core/src/core/agenticThinkAIClient.ts`
(the latter file contains two concatenated revisions; the second, later
revision is the one embedded, matching the line ranges of the claims).

Conventions of the embedding:
* TypeScript `Content` values carry a role restricted to `user`/`model`
  (enforced by `validateHistory`) and a list of parts; a part is an object
  that may carry a `text` field and possibly other fields.  `MsgPart.text =
  none` models an absent `text` key, `otherFields` counts the remaining keys.
* Remote calls and tool invocations are modelled by explicit outcome
  parameters (`Except`), streamed transports by the list of delivered chunks
  plus an optional read error, and the cooperative `AbortSignal` by a
  function from check-index (checks are numbered in program order) to `Bool`.
* JavaScript string methods (`trim`, `toLowerCase`, `includes`, `startsWith`,
  `slice`, `split`, `join`) are re-implemented as structural recursions over
  the character list so that every definition evaluates inside the kernel.
  `trim` is modelled on the four common whitespace characters and
  `toLowerCase` by per-character ASCII lowercasing, which agree with
  JavaScript on all inputs appearing in this development.
-/

/-- Roles admitted by `validateHistory` in `thinkAIChat.ts`: any other role is
rejected at the boundary, so histories are modelled with this two-valued
type. -/
inductive Role where
  | user
  | model
deriving DecidableEq, Repr

/-- The role the other party holds in a strictly alternating history. -/
def otherRole : Role → Role
  | Role.user => Role.model
  | Role.model => Role.user

/-- One content part: an object with an optional `text` key (`none` models an
absent key, `some ""` an empty string value) and `otherFields` further keys. -/
structure MsgPart where
  text : Option String
  otherFields : Nat
deriving DecidableEq, Repr

/-- One conversation turn (`Content` in the TypeScript source). -/
structure Content where
  role : Role
  parts : List MsgPart
deriving DecidableEq, Repr

/-- A part that is an empty structured object: no `text` key and no other
keys, i.e. `Object.keys(part).length === 0` in the source. -/
def isEmptyObject (p : MsgPart) : Bool :=
  p.text.isNone && p.otherFields == 0

/-- Embedding of `ThinkAIChat.isValidContent`: at least one part, no part an
empty object, and no empty text part. -/
def isValidContent (c : Content) : Bool :=
  !c.parts.isEmpty &&
    c.parts.all (fun p => !(isEmptyObject p) && !(p.text == some ""))

/-- Turns whose role is `model`, the predicate of the inner buffering loop of
`extractCuratedHistory`. -/
def isModelRole (c : Content) : Bool := c.role == Role.model

/-- Embedding of the `while` loop of `ThinkAIChat.extractCuratedHistory`:
`acc` is the `curatedHistory` array built so far.  A user turn is pushed
unconditionally; a maximal run of consecutive model turns is pushed only if
every turn in it is valid, otherwise the run is dropped and the last element
pushed so far is popped (`pop` on an empty array is a no-op, as is
`List.dropLast`). -/
def curateLoop (acc : List Content) : List Content → List Content
  | [] => acc
  | c :: rest =>
    if c.role = Role.user then
      curateLoop (acc ++ [c]) rest
    else
      let run := c :: rest.takeWhile isModelRole
      let remaining := rest.dropWhile isModelRole
      if run.all isValidContent then
        curateLoop (acc ++ run) remaining
      else
        curateLoop acc.dropLast remaining
termination_by l => l.length
decreasing_by
  all_goals simp
  all_goals have hle := (List.dropWhile_sublist isModelRole (l := rest)).length_le
  all_goals omega

/-- Embedding of `ThinkAIChat.extractCuratedHistory` (the curated projection
`curate` of the specification). -/
def extractCuratedHistory (h : List Content) : List Content :=
  curateLoop [] h

/-- Boolean predicate: the role sequence of the list strictly alternates,
starting with role `r`. -/
def altFrom (r : Role) : List Content → Bool
  | [] => true
  | c :: rest => c.role == r && altFrom (otherRole r) rest

/-- Closed form of the curation loop on a strictly alternating history: each
user/model pair survives exactly when the model turn is valid, and a trailing
unanswered user turn survives unconditionally.  Used only as a proof device
for the curation lemmas. -/
def curAlt : List Content → List Content
  | [] => []
  | [u] => [u]
  | u :: m :: rest => if isValidContent m then u :: m :: curAlt rest else curAlt rest

/-- Whitespace test covering space, tab, line feed and carriage return (the
JavaScript `\s` characters occurring in this development). -/
def isWsChar (c : Char) : Bool :=
  c == ' ' || c == '\t' || c == '\n' || c == '\r'

/-- Character-list model of JavaScript `String.prototype.trim`. -/
def trimChars (cs : List Char) : List Char :=
  ((cs.dropWhile isWsChar).reverse.dropWhile isWsChar).reverse

/-- JavaScript `trim` on strings. -/
def jsTrim (s : String) : String := String.mk (trimChars s.data)

/-- JavaScript `toLowerCase` (ASCII lowercasing). -/
def jsToLower (s : String) : String := String.mk (s.data.map Char.toLower)

/-- JavaScript `startsWith`. -/
def jsStartsWith (s pat : String) : Bool := pat.data.isPrefixOf s.data

/-- Substring search on character lists: `pat` occurs somewhere in `hay`. -/
def includesChars (hay pat : List Char) : Bool :=
  match hay with
  | [] => pat.isEmpty
  | _ :: t => pat.isPrefixOf hay || includesChars t pat

/-- JavaScript `includes` on strings. -/
def jsIncludes (s pat : String) : Bool := includesChars s.data pat.data

/-- JavaScript `slice(n)` for a non-negative character index. -/
def jsDrop (s : String) (n : Nat) : String := String.mk (s.data.drop n)

/-- Join a list of strings with a separator, as `Array.prototype.join`. -/
def joinWith (sep : String) : List String → String
  | [] => ""
  | [x] => x
  | x :: y :: xs => x ++ sep ++ joinWith sep (y :: xs)

/-- A member of a `PartListUnion` array: either a plain string or a part
object. -/
inductive RequestPart where
  | str (s : String)
  | part (p : MsgPart)
deriving DecidableEq, Repr

/-- The `PartListUnion` request accepted by `sendMessageStream`: a string, an
array of strings/parts, or a single part object. -/
inductive Request where
  | single (s : String)
  | list (ps : List RequestPart)
  | onePart (p : MsgPart)
deriving DecidableEq, Repr

/-- The text drawn from a part object by `(part as any).text || ''`: the value
of the `text` key, or the empty string when the key is absent or empty. -/
def partText (p : MsgPart) : String :=
  match p.text with
  | some s => s
  | none => ""

/-- Embedding of the request-flattening prelude shared by both
`sendMessageStream` implementations: a string passes through, an array is
mapped to text and joined with single spaces, and a lone part object either
yields its text or stringifies to `"[object Object]"` when it has no `text`
key. -/
def flattenRequest : Request → String
  | Request.single s => s
  | Request.list ps =>
      joinWith " " (ps.map fun rp =>
        match rp with
        | RequestPart.str s => s
        | RequestPart.part p => partText p)
  | Request.onePart p =>
      match p.text with
      | some s => s
      | none => "[object Object]"

/-- Events observable by the caller of `sendMessageStream`. -/
inductive StreamEvent where
  | content (s : String)
  | fail (msg : String)
deriving DecidableEq, Repr

/-- The user turn pushed onto history for message text `s`. -/
def userTurn (s : String) : Content :=
  { role := Role.user, parts := [{ text := some s, otherFields := 0 }] }

/-- The model turn pushed onto history for accumulated response text `s`. -/
def modelTurn (s : String) : Content :=
  { role := Role.model, parts := [{ text := some s, otherFields := 0 }] }

/-- Embedding of the `for await (const chunk of stream)` loop of
`ThinkAIClient.sendMessageStream`.  `signal k` is the abort flag read at the
k-th check (one check per delivered chunk, before it is yielded).  Returns
the yielded chunks, the accumulated `fullResponse`, and the index of the next
signal check (the post-loop `!signal.aborted` read). -/
def streamLoop (signal : Nat → Bool) : Nat → List String → List String × String × Nat
  | k, [] => ([], "", k)
  | k, c :: rest =>
    if signal k then ([], "", k)
    else
      let r := streamLoop signal (k + 1) rest
      (c :: r.1, c ++ r.2.1, r.2.2)

/-- Embedding of `ThinkAIClient.sendMessageStream` (`thinkAIClient.ts`):
guard on the turn budget, flatten the request, return immediately on an
empty/whitespace message, otherwise push the user turn, relay the stream
(stopping at the first observed abort), and commit the model turn only when
the signal was not aborted at the final check and the accumulated response is
non-blank.  `chunks` is the fragment sequence the transport delivers; the
result is the yielded events paired with the history after the turn. -/
def sendMessageStreamClient (hist : List Content) (req : Request)
    (signal : Nat → Bool) (chunks : List String) (turns : Nat) :
    List StreamEvent × List Content :=
  if turns = 0 then ([], hist)
  else
    let message := flattenRequest req
    if jsTrim message = "" then ([], hist)
    else
      let hist1 := hist ++ [userTurn message]
      let r := streamLoop signal 0 chunks
      let full := r.2.1
      let kf := r.2.2
      let hist2 :=
        if signal kf = false ∧ jsTrim full ≠ "" then hist1 ++ [modelTurn full]
        else hist1
      (r.1.map StreamEvent.content, hist2)

/-- The decoded form of one `data:` payload, as produced by `JSON.parse`: an
optional `chunk` field (string) and a `done` flag.  `chunk = some ""` models
a present but empty field, which is falsy and therefore not yielded. -/
structure DecodedLine where
  chunk : Option String
  done : Bool
deriving DecidableEq, Repr

/-- The fragments yielded for one decoded record: `if (parsed.chunk) yield
parsed.chunk` in the source (truthiness: absent or empty yields nothing). -/
def chunkYield (d : DecodedLine) : List String :=
  match d.chunk with
  | some s => if s = "" then [] else [s]
  | none => []

/-- Embedding of the line-processing loop of
`ThinkAIClient.sendMessageStreamToThinkAI`, parameterised by the decoder
(`JSON.parse` restricted to `\x7bchunk, done\x7d` records; `none` models a
parse failure).  Lines not prefixed `data: ` are ignored; a payload equal to
`[DONE]` or the empty string is skipped; a decodable payload yields its
truthy `chunk` and ends the whole stream when `done` is truthy; a payload
that fails to decode is logged and skipped.  Returns the yielded fragments
and whether the stream was ended early by a `done=true` record. -/
def processLines (decode : String → Option DecodedLine) :
    List String → List String × Bool
  | [] => ([], false)
  | line :: rest =>
    if jsStartsWith line "data: " then
      let data := jsTrim (jsDrop line 6)
      if data = "[DONE]" ∨ data = "" then processLines decode rest
      else
        match decode data with
        | none => processLines decode rest
        | some d =>
          if d.done then (chunkYield d, true)
          else
            let r := processLines decode rest
            (chunkYield d ++ r.1, r.2)
    else processLines decode rest

/-- Embedding of `ThinkAIClient.sendMessageStreamToThinkAI`.  The transport
outcome is the list of `data:`-framed lines actually delivered plus an
optional error thrown by `makeStreamRequest` or a subsequent `read()` (an
opening failure is `([], some e)`).  `fallback` is the outcome of the
non-streaming `sendMessageToThinkAI` call.  On any stream error the code
falls back and yields the full non-streaming response as one additional
fragment; if the parser already returned on `done=true`, no further read
happens and no error can arise.  A failing fallback is rethrown wrapped by
the outer catch. -/
def sendMessageStreamToThinkAI (decode : String → Option DecodedLine)
    (lines : List String) (readError : Option String)
    (fallback : Except String String) : Except String (List String) :=
  let r := processLines decode lines
  if r.2 then Except.ok r.1
  else
    match readError with
    | none => Except.ok r.1
    | some _ =>
      match fallback with
      | Except.ok resp => Except.ok (r.1 ++ [resp])
      | Except.error e => Except.error ("Failed to stream message: " ++ e)

/-- One tool call of a plan (`FunctionCall`): an optional tool name and a
string-keyed argument map. -/
structure FunctionCall where
  name : Option String
  args : List (String × String)
deriving DecidableEq, Repr

/-- The language-specific target chosen by the heuristic fallback: filename,
file content and run command. -/
structure LangTarget where
  fileName : String
  content : String
  runCommand : String
deriving DecidableEq, Repr

/-- The default Node.js target of `fallbackPatternMatching` (second revision
of `agenticThinkAIClient.ts`). -/
def nodeTarget : LangTarget :=
  { fileName := "server.js"
    content := "console.log(\"Hello World\");"
    runCommand := "node server.js" }

/-- The Go target of `fallbackPatternMatching`. -/
def goTarget : LangTarget :=
  { fileName := "server.go"
    content := "package main\n\nimport (\n    \"fmt\"\n    \"net/http\"\n)\n\nfunc main() \x7b\n    http.HandleFunc(\"/\", func(w http.ResponseWriter, r *http.Request) \x7b\n        fmt.Fprintf(w, \"Hello World!\")\n    \x7d)\n    fmt.Println(\"Server running at http://localhost:8080\")\n    http.ListenAndServe(\":8080\", nil)\n\x7d"
    runCommand := "go run server.go" }

/-- The Python target of `fallbackPatternMatching`. -/
def pyTarget : LangTarget :=
  { fileName := "server.py"
    content := "print(\"Hello World\")"
    runCommand := "python3 server.py" }

/-- Matcher for the regular expression `^(run|execute|start)(\s+it)?$`
applied to the lowercased, trimmed message: after the leading token, either
nothing follows or one-or-more whitespace characters followed by exactly
`it`. -/
def wsThenIt : List Char → Bool
  | [] => false
  | c :: cs => isWsChar c && ((cs.dropWhile isWsChar) == ['i', 't'])

/-- Whether the whole character list matches `^tok(\s+it)?$`. -/
def matchesExecToken (tok : String) (cs : List Char) : Bool :=
  tok.data.isPrefixOf cs &&
    (let rest := cs.drop tok.data.length
     rest.isEmpty || wsThenIt rest)

/-- Whether the message matches `^(run|execute|start)(\s+it)?$`. -/
def matchesExecOnly (s : String) : Bool :=
  ["run", "execute", "start"].any fun tok => matchesExecToken tok s.data

/-- Embedding of `AgenticThinkAIClient.fallbackPatternMatching` (second
revision): lowercase and trim the message; on a write/create + server/hello
message emit one `write_file` for the detected language (Go when the message
contains `golang` or `go `, Python when it contains `python`, Node
otherwise), plus a `run_shell_command` when the message also contains `and`
together with `execute` or `run`; on a bare run/execute/start message emit
the fixed Node run command; otherwise no tools. -/
def fallbackPatternMatching (message workingDir : String) :
    Bool × List FunctionCall :=
  let lowerMessage := jsTrim (jsToLower message)
  let writePattern := jsIncludes lowerMessage "write" || jsIncludes lowerMessage "create"
  let serverPattern := jsIncludes lowerMessage "server" || jsIncludes lowerMessage "hello"
  let toolCalls : List FunctionCall :=
    if writePattern && serverPattern then
      let lang :=
        if jsIncludes lowerMessage "golang" || jsIncludes lowerMessage "go " then goTarget
        else if jsIncludes lowerMessage "python" then pyTarget
        else nodeTarget
      let base : List FunctionCall :=
        [{ name := some "write_file"
           args := [("file_path", workingDir ++ "/" ++ lang.fileName),
                    ("content", lang.content)] }]
      if jsIncludes lowerMessage "and" &&
          (jsIncludes lowerMessage "execute" || jsIncludes lowerMessage "run") then
        base ++ [{ name := some "run_shell_command"
                   args := [("command", lang.runCommand)] }]
      else base
    else if matchesExecOnly lowerMessage then
      [{ name := some "run_shell_command", args := [("command", "node server.js")] }]
    else []
  (!toolCalls.isEmpty, toolCalls)

/-- The `llmContent` of a tool result: a plain string, an array of
strings/parts, a single part object, or absent. -/
inductive ToolOutput where
  | strContent (s : String)
  | partsContent (ps : List RequestPart)
  | onePartContent (p : MsgPart)
  | noContent
deriving Repr

/-- A registered tool, modelled by its execution outcome on given arguments
(`Except.error` models a thrown error). -/
def ToolFn : Type := List (String × String) → Except String ToolOutput

/-- The interpolation `$\x7btoolName || 'unknown'\x7d` used in error lines. -/
def nameOrUnknown : Option String → String
  | none => "unknown"
  | some s => if s = "" then "unknown" else s

/-- Normalisation of `result.llmContent` to plain text, as in
`executeLocalTools`: strings pass through, arrays are mapped to text and
concatenated, a lone part contributes its text, anything else yields the
empty string. -/
def normalizeOutput : ToolOutput → String
  | ToolOutput.strContent s => s
  | ToolOutput.partsContent ps =>
      joinWith "" (ps.map fun rp =>
        match rp with
        | RequestPart.str s => s
        | RequestPart.part p => partText p)
  | ToolOutput.onePartContent p => partText p
  | ToolOutput.noContent => ""

/-- The per-entry report of `AgenticThinkAIClient.executeLocalTools`: one
line for a missing registry, missing name or unknown tool, an error line for
a thrown error, and otherwise the success banner with the normalised output
or the `(no output)` marker. -/
def executeOneTool (registry : Option (String → Option ToolFn))
    (tc : FunctionCall) : String :=
  match registry with
  | none => "Tool registry not available for " ++ nameOrUnknown tc.name
  | some reg =>
    match tc.name with
    | none => "Tool call missing name"
    | some toolName =>
      if toolName = "" then "Tool call missing name"
      else
        match reg toolName with
        | none => "Tool '" ++ toolName ++ "' not found"
        | some tool =>
          match tool tc.args with
          | Except.error e =>
              "Error executing tool '" ++ nameOrUnknown (some toolName) ++ "': " ++ e
          | Except.ok out =>
              let output := normalizeOutput out
              if jsTrim output ≠ "" then
                "Tool '" ++ toolName ++ "' executed successfully:\n" ++ output
              else
                "Tool '" ++ toolName ++ "' executed successfully (no output)"

/-- The `results` array built by the `for` loop of `executeLocalTools`: every
plan entry contributes exactly one report and the loop never aborts (each
failure mode ends in `continue` or a caught error). -/
def executeToolsLoop (registry : Option (String → Option ToolFn)) :
    List FunctionCall → List String
  | [] => []
  | tc :: rest => executeOneTool registry tc :: executeToolsLoop registry rest

/-- Embedding of `AgenticThinkAIClient.executeLocalTools`: with no tool
scheduler the fixed message is returned; otherwise the per-entry reports are
joined with blank lines. -/
def executeLocalTools (schedulerInit : Bool)
    (registry : Option (String → Option ToolFn))
    (toolCalls : List FunctionCall) : String :=
  if !schedulerInit then "Tool scheduler not initialized. Cannot execute local tools."
  else joinWith "\n\n" (executeToolsLoop registry toolCalls)

/-- The non-streaming ThinkAI response (the fields beyond `response` play no
role in the embedded control flow). -/
structure ThinkAIResp where
  response : String
deriving DecidableEq, Repr

/-- `createUserContent(params.message)` for a plain string message. -/
def createUserContent (msg : String) : Content := userTurn msg

/-- Embedding of `ThinkAIChat.sendMessage` (the synchronous send path):
the user turn is pushed speculatively; on success the converted model turn is
pushed as well and the response returned; on failure the trailing user turn
(when the history indeed ends in one) is popped and the error rethrown.
`remote` is the outcome of `client.sendMessageToThinkAI`.  Returns the
propagated result paired with the history after the turn. -/
def sendMessage (hist : List Content) (msg : String)
    (remote : Except String ThinkAIResp) :
    Except String ThinkAIResp × List Content :=
  let hist1 := hist ++ [createUserContent msg]
  match remote with
  | Except.ok r => (Except.ok r, hist1 ++ [modelTurn r.response])
  | Except.error e =>
    let hist2 :=
      match hist1.getLast? with
      | some c => if c.role = Role.user then hist1.dropLast else hist1
      | none => hist1
    (Except.error e, hist2)

/-- The environment of one agentic turn: the outcome of the remote
intent-parsing call (`Except.error` models any network or JSON failure, which
falls through to the heuristic), the tool scheduler/registry state, and the
conversational stream (delivered chunks plus an optional error thrown at the
following read). -/
structure AgenticEnv where
  aiIntent : Except String (Bool × List FunctionCall)
  schedulerInit : Bool
  registry : Option (String → Option ToolFn)
  chunks : List String
  readError : Option String

/-- Argument lookup with the `|| 'dflt'` fallback used when synthesising the
acknowledgment line. -/
def argOr (args : List (String × String)) (key dflt : String) : String :=
  match args.lookup key with
  | some v => if v = "" then dflt else v
  | none => dflt

/-- The `helpfulResponse` synthesis of the agentic tool path: phrasing
depends on whether the plan contained writes, commands, or both, followed by
the aggregate tool report. -/
def helpfulResponse (toolCalls : List FunctionCall) (toolResults : String) :
    String :=
  let fileOps := toolCalls.filter fun tc => tc.name == some "write_file"
  let cmdOps := toolCalls.filter fun tc => tc.name == some "run_shell_command"
  match fileOps, cmdOps with
  | f :: _, c :: _ =>
      "✅ Created '" ++ argOr f.args "file_path" "file" ++ "' and executed '" ++
        argOr c.args "command" "command" ++ "'\n\n" ++ toolResults
  | f :: _, [] =>
      "✅ Created file '" ++ argOr f.args "file_path" "file" ++ "'\n\n" ++ toolResults
  | [], c :: _ =>
      "✅ Executed '" ++ argOr c.args "command" "command" ++ "'\n\n" ++ toolResults
  | [], [] => "✅ Completed operation\n\n" ++ toolResults

/-- The canned reply yielded when the conversational stream throws. -/
def localFallbackResponse (message : String) : String :=
  "I understand you want to \"" ++ message ++
    "\". However, I'm currently running in local mode and this request doesn't match any local tools I can execute. Available local tools include file operations (read, write, edit), shell commands, and directory listings."

/-- The conversational `for await` loop of the agentic client: like
`streamLoop` but also reporting whether the loop was left by the abort
`break` (in which case the pending read error is never reached).  Returns
yielded chunks, accumulated response, next check index, and the break flag. -/
def agenticStreamLoop (signal : Nat → Bool) :
    Nat → List String → List String × String × Nat × Bool
  | k, [] => ([], "", k, false)
  | k, c :: rest =>
    if signal k then ([], "", k, true)
    else
      let r := agenticStreamLoop signal (k + 1) rest
      (c :: r.1, c ++ r.2.1, r.2.2.1, r.2.2.2)

/-- Embedding of `AgenticThinkAIClient.sendMessageStream` (second revision):
guard on the turn budget, flatten the request, return immediately on an
empty/whitespace message; otherwise push the user turn, resolve the intent
(remote planning with heuristic fallback), and either run the tool path
(progress event, local tool execution, synthesised acknowledgment) or relay
the conversational stream, replacing it by the canned local reply when the
stream throws.  The model turn is committed only when the signal is not
aborted at the final check and the response is non-blank.  The mode-selection
subcall only parameterises the remote request and is not modelled. -/
def agenticSendMessageStream (hist : List Content) (req : Request)
    (signal : Nat → Bool) (turns : Nat) (workingDir : String)
    (env : AgenticEnv) : List StreamEvent × List Content :=
  if turns = 0 then ([], hist)
  else
    let message := flattenRequest req
    if jsTrim message = "" then ([], hist)
    else
      let hist1 := hist ++ [userTurn message]
      let intent :=
        match env.aiIntent with
        | Except.ok p => p
        | Except.error _ => fallbackPatternMatching message workingDir
      if intent.1 && !intent.2.isEmpty then
        let toolResults := executeLocalTools env.schedulerInit env.registry intent.2
        let response := helpfulResponse intent.2 toolResults
        let events :=
          [StreamEvent.content
            ("✦ Executing " ++ toString intent.2.length ++ " tool(s) for: " ++
              message ++ "\n\n"),
           StreamEvent.content response]
        let hist2 :=
          if signal 0 = false ∧ jsTrim response ≠ "" then hist1 ++ [modelTurn response]
          else hist1
        (events, hist2)
      else
        let r := agenticStreamLoop signal 0 env.chunks
        let kf := r.2.2.1
        let broke := r.2.2.2
        if broke = false ∧ env.readError.isSome then
          let response := localFallbackResponse message
          let events := r.1.map StreamEvent.content ++ [StreamEvent.content response]
          let hist2 :=
            if signal kf = false ∧ jsTrim response ≠ "" then hist1 ++ [modelTurn response]
            else hist1
          (events, hist2)
        else
          let response := r.2.1
          let hist2 :=
            if signal kf = false ∧ jsTrim response ≠ "" then hist1 ++ [modelTurn response]
            else hist1
          (r.1.map StreamEvent.content, hist2)

/-- JSON decoding (`JSON.parse` to a `\x7bchunk, done\x7d` record) restricted
to the two concrete payloads used by the stream-parsing examples; every other
payload fails to decode. -/
def decodeSample : String → Option DecodedLine := fun s =>
  if s = "\x7b\"chunk\": \"x\"\x7d" then some { chunk := some "x", done := false }
  else if s = "\x7b\"chunk\": \"y\", \"done\": true\x7d" then
    some { chunk := some "y", done := true }
  else none

/-- Every model turn the curation loop ever emits is valid: model turns enter
the output only as part of an all-valid run, user turns are not model turns,
and popping only shrinks the output. -/
theorem curateLoop_model_valid :
    ∀ acc l : List Content,
      (∀ c ∈ acc, c.role = Role.model → isValidContent c = true) →
      ∀ c ∈ curateLoop acc l, c.role = Role.model → isValidContent c = true := by
  intro acc l
  induction acc, l using curateLoop.induct with
  | case1 acc =>
      intro hacc
      simpa only [curateLoop] using hacc
  | case2 acc c rest hu ih =>
      intro hacc
      simp only [curateLoop, if_pos hu]
      apply ih
      intro x hx hrole
      rcases List.mem_append.mp hx with h | h
      · exact hacc x h hrole
      · simp only [List.mem_singleton] at h
        subst h
        rw [hu] at hrole
        cases hrole
  | case3 acc c rest hu run remaining hall ih =>
      intro hacc
      have hall2 : (c :: List.takeWhile isModelRole rest).all isValidContent = true := hall
      simp only [curateLoop, if_neg hu]
      rw [if_pos hall2]
      apply ih
      intro x hx hrole
      rcases List.mem_append.mp hx with h | h
      · exact hacc x h hrole
      · exact List.all_eq_true.mp hall2 x h
  | case4 acc c rest hu run remaining hall ih =>
      intro hacc
      have hall2 : ¬(c :: List.takeWhile isModelRole rest).all isValidContent = true := hall
      simp only [curateLoop, if_neg hu]
      rw [if_neg hall2]
      apply ih
      intro x hx hrole
      exact hacc x ((List.dropLast_sublist acc).mem hx) hrole

/-- On input whose model turns are all valid the curation loop is a plain
append: every run test succeeds, so nothing is dropped or popped. -/
theorem curateLoop_of_all_valid :
    ∀ acc l : List Content,
      (∀ c ∈ l, c.role = Role.model → isValidContent c = true) →
      curateLoop acc l = acc ++ l := by
  intro acc l
  induction acc, l using curateLoop.induct with
  | case1 acc => intro _; simp [curateLoop]
  | case2 acc c rest hu ih =>
      intro hl
      simp only [curateLoop, if_pos hu]
      rw [ih fun x hx => hl x (List.mem_cons_of_mem c hx)]
      simp
  | case3 acc c rest hu run remaining hall ih =>
      intro hl
      have hall2 : (c :: List.takeWhile isModelRole rest).all isValidContent = true := hall
      simp only [curateLoop, if_neg hu]
      rw [if_pos hall2]
      rw [ih fun x hx =>
        hl x (List.mem_cons_of_mem c ((List.dropWhile_sublist isModelRole).mem hx))]
      show acc ++ (c :: List.takeWhile isModelRole rest) ++ List.dropWhile isModelRole rest =
        acc ++ (c :: rest)
      simp [List.takeWhile_append_dropWhile]
  | case4 acc c rest hu run remaining hall ih =>
      intro hl
      exfalso
      apply hall
      show (c :: List.takeWhile isModelRole rest).all isValidContent = true
      apply List.all_eq_true.mpr
      intro x hx
      rcases List.mem_cons.mp hx with h | h
      · subst h
        apply hl x (List.mem_cons_self x rest)
        cases hrole : x.role with
        | user => exact absurd hrole hu
        | model => rfl
      · apply hl x (List.mem_cons_of_mem c ((List.takeWhile_sublist isModelRole).mem h))
        have hm := List.mem_takeWhile_imp h
        simpa [isModelRole] using hm

/-- On a strictly alternating history the curation loop appends exactly the
pairs kept by `curAlt`: model runs are singletons, an invalid model reply
pops its paired user prompt, and a trailing user turn survives. -/
theorem curateLoop_alt :
    ∀ l acc : List Content,
      altFrom Role.user l = true →
      curateLoop acc l = acc ++ curAlt l := by
  intro l
  induction l using curAlt.induct with
  | case1 => intro acc _; simp [curateLoop, curAlt]
  | case2 u =>
      intro acc halt
      have hu : u.role = Role.user := by
        simp [altFrom] at halt; exact halt
      simp [curateLoop, curAlt, if_pos hu]
  | case3 u m rest hval ih =>
      intro acc halt
      simp only [altFrom, otherRole, Bool.and_eq_true, beq_iff_eq] at halt
      obtain ⟨hu, hm, hrest⟩ := halt
      have hmu : ¬m.role = Role.user := by rw [hm]; simp
      have htake : rest.takeWhile isModelRole = [] ∧ rest.dropWhile isModelRole = rest := by
        cases rest with
        | nil => simp
        | cons a as =>
          have ha : a.role = Role.user := by
            simp only [altFrom, Bool.and_eq_true, beq_iff_eq] at hrest
            exact hrest.1
          constructor
          · rw [List.takeWhile_cons_of_neg]
            simp [isModelRole, ha]
          · rw [List.dropWhile_cons_of_neg]
            simp [isModelRole, ha]
      have hall2 : (m :: rest.takeWhile isModelRole).all isValidContent = true := by
        rw [htake.1]; simp [hval]
      simp only [curateLoop, if_pos hu]
      rw [if_neg hmu, if_pos hall2, htake.1, htake.2]
      rw [ih ((acc ++ [u]) ++ [m]) hrest]
      simp [curAlt, hval]
  | case4 u m rest hval ih =>
      intro acc halt
      simp only [altFrom, otherRole, Bool.and_eq_true, beq_iff_eq] at halt
      obtain ⟨hu, hm, hrest⟩ := halt
      have hmu : ¬m.role = Role.user := by rw [hm]; simp
      have htake : rest.takeWhile isModelRole = [] ∧ rest.dropWhile isModelRole = rest := by
        cases rest with
        | nil => simp
        | cons a as =>
          have ha : a.role = Role.user := by
            simp only [altFrom, Bool.and_eq_true, beq_iff_eq] at hrest
            exact hrest.1
          constructor
          · rw [List.takeWhile_cons_of_neg]
            simp [isModelRole, ha]
          · rw [List.dropWhile_cons_of_neg]
            simp [isModelRole, ha]
      have hall2 : ¬(m :: rest.takeWhile isModelRole).all isValidContent = true := by
        rw [htake.1]; simp [hval]
      simp only [curateLoop, if_pos hu]
      rw [if_neg hmu, if_neg hall2, htake.2, List.dropLast_concat]
      rw [ih acc hrest]
      simp [curAlt, hval]

/-- The kept pairs of a strictly alternating history with valid user turns
are all valid and still alternate starting with user. -/
theorem curAlt_valid_alt :
    ∀ l : List Content,
      altFrom Role.user l = true →
      (∀ c ∈ l, c.role = Role.user → isValidContent c = true) →
      (curAlt l).all isValidContent = true ∧
        altFrom Role.user (curAlt l) = true := by
  intro l
  induction l using curAlt.induct with
  | case1 => intro _ _; simp [curAlt, altFrom]
  | case2 u =>
      intro halt huser
      have hu : u.role = Role.user := by
        simp [altFrom] at halt; exact halt
      constructor
      · simp [curAlt]
        exact huser u (List.mem_singleton_self u) hu
      · simp [curAlt, altFrom, hu]
  | case3 u m rest hval ih =>
      intro halt huser
      simp only [altFrom, otherRole, Bool.and_eq_true, beq_iff_eq] at halt
      obtain ⟨hu, hm, hrest⟩ := halt
      have hrec := ih hrest fun c hc hcu =>
        huser c (List.mem_cons_of_mem u (List.mem_cons_of_mem m hc)) hcu
      constructor
      · simp only [curAlt, if_pos hval, List.all_cons, Bool.and_eq_true]
        exact ⟨huser u (List.mem_cons_self u _) hu, hval, hrec.1⟩
      · simp only [curAlt, if_pos hval, altFrom, otherRole, Bool.and_eq_true, beq_iff_eq]
        exact ⟨hu, hm, hrec.2⟩
  | case4 u m rest hval ih =>
      intro halt huser
      simp only [altFrom, otherRole, Bool.and_eq_true, beq_iff_eq] at halt
      obtain ⟨hu, hm, hrest⟩ := halt
      have hrec := ih hrest fun c hc hcu =>
        huser c (List.mem_cons_of_mem u (List.mem_cons_of_mem m hc)) hcu
      simpa [curAlt, hval] using hrec

/-- C1 (counterexample): the claim fails as stated.  A history of two user
turns with no parts is returned unchanged by curation (user turns pass
through unconditionally), so the curated projection contains turns with zero
parts and its role sequence user,user does not alternate. -/
theorem curated_invariant_counterexample :
    ¬ (((extractCuratedHistory
          [{ role := Role.user, parts := [] }, { role := Role.user, parts := [] }]).all
            isValidContent = true) ∧
       (altFrom Role.user
          (extractCuratedHistory
            [{ role := Role.user, parts := [] }, { role := Role.user, parts := [] }]) = true ∨
        extractCuratedHistory
          [{ role := Role.user, parts := [] }, { role := Role.user, parts := [] }] = [])) := by
  have hval : extractCuratedHistory
      [{ role := Role.user, parts := [] }, { role := Role.user, parts := [] }] =
      [{ role := Role.user, parts := [] }, { role := Role.user, parts := [] }] := by
    simp [extractCuratedHistory, curateLoop]
  rw [hval]
  decide

/-- C1 (amended): for every history whose role sequence strictly alternates
user/model starting with a user turn and whose user turns are all valid,
every turn of the curated projection has at least one part and no empty text
part (it is valid), and the curated projection strictly alternates
user/model starting with a user turn, or is empty. -/
theorem curated_invariant_of_alternating (h : List Content)
    (halt : altFrom Role.user h = true)
    (huser : ∀ c ∈ h, c.role = Role.user → isValidContent c = true) :
    (extractCuratedHistory h).all isValidContent = true ∧
    (altFrom Role.user (extractCuratedHistory h) = true ∨
      extractCuratedHistory h = []) := by
  unfold extractCuratedHistory
  rw [curateLoop_alt h [] halt]
  simp only [List.nil_append]
  obtain ⟨h1, h2⟩ := curAlt_valid_alt h halt huser
  exact ⟨h1, Or.inl h2⟩

/-- C1 (witness): the amended invariant evaluated on the concrete
alternating history user("hi"), model("ok"). -/
theorem curated_invariant_of_alternating_witness :
    (extractCuratedHistory [userTurn "hi", modelTurn "ok"]).all isValidContent = true ∧
    (altFrom Role.user (extractCuratedHistory [userTurn "hi", modelTurn "ok"]) = true ∨
      extractCuratedHistory [userTurn "hi", modelTurn "ok"] = []) :=
  curated_invariant_of_alternating [userTurn "hi", modelTurn "ok"] (by decide) (by decide)

/-- C2: curation is idempotent, `curate(curate(h)) = curate(h)` for every
history `h`: every model turn the first pass emits is valid, and on input
whose model turns are all valid the pass is the identity. -/
theorem curated_idempotent (h : List Content) :
    extractCuratedHistory (extractCuratedHistory h) = extractCuratedHistory h := by
  unfold extractCuratedHistory
  rw [curateLoop_of_all_valid [] (curateLoop [] h)
    (curateLoop_model_valid [] h (by intro c hc; cases hc))]
  simp

/-- C3 (counterexample): the claim fails as stated.  With the abort signal
already set, a non-empty message and a one-chunk stream, the streaming turn
yields zero fragments but the history is not left unchanged: the
speculatively appended user turn survives (the pre-history is `[]`, the
post-history is not). -/
theorem stream_abort_counterexample :
    ¬ ((sendMessageStreamClient [] (Request.single "hi") (fun _ => true) ["x"] 100).1 = [] ∧
       (sendMessageStreamClient [] (Request.single "hi") (fun _ => true) ["x"] 100).2 = []) := by
  decide

/-- C3 (amended): for every non-empty user message, if the cancellation
signal is already set before the first stream fragment is produced, then on
both streaming implementations no model turn is committed and the history
after the turn equals the history before it plus exactly the speculatively
appended user turn, which neither streaming path rolls back.  The base
client yields zero content fragments; the agentic client relays zero
fragments from the conversational stream, but its tool path still yields the
progress banner and synthesised acknowledgment, and its stream-failure
fallback still yields the canned local-mode reply, neither being guarded by
the signal. -/
theorem stream_abort_keeps_user_turn (hist : List Content) (req : Request)
    (signal : Nat → Bool) (chunks : List String) (turns : Nat)
    (workingDir : String) (env : AgenticEnv)
    (hturns : turns ≠ 0) (hmsg : jsTrim (flattenRequest req) ≠ "")
    (hsig : signal 0 = true) :
    sendMessageStreamClient hist req signal chunks turns =
      ([], hist ++ [userTurn (flattenRequest req)]) ∧
    (agenticSendMessageStream hist req signal turns workingDir env).2 =
      hist ++ [userTurn (flattenRequest req)] ∧
    (∀ p : Bool × List FunctionCall, env.aiIntent = Except.ok p →
      (p.1 = false ∨ p.2 = []) → (env.chunks ≠ [] ∨ env.readError = none) →
      (agenticSendMessageStream hist req signal turns workingDir env).1 = []) ∧
    (∀ p : Bool × List FunctionCall, env.aiIntent = Except.ok p →
      (p.1 = false ∨ p.2 = []) → env.chunks = [] → env.readError.isSome = true →
      (agenticSendMessageStream hist req signal turns workingDir env).1 =
        [StreamEvent.content (localFallbackResponse (flattenRequest req))]) ∧
    (∀ p : Bool × List FunctionCall, env.aiIntent = Except.ok p →
      p.1 = true → p.2 ≠ [] →
      (agenticSendMessageStream hist req signal turns workingDir env).1 =
        [StreamEvent.content ("✦ Executing " ++ toString p.2.length ++
            " tool(s) for: " ++ flattenRequest req ++ "\n\n"),
         StreamEvent.content (helpfulResponse p.2
            (executeLocalTools env.schedulerInit env.registry p.2))]) := by
  have hbase : sendMessageStreamClient hist req signal chunks turns =
      ([], hist ++ [userTurn (flattenRequest req)]) := by
    unfold sendMessageStreamClient
    rw [if_neg hturns, if_neg hmsg]
    cases chunks with
    | nil => simp [streamLoop, hsig]
    | cons c rest => simp [streamLoop, hsig]
  refine ⟨hbase, ?_, ?_, ?_, ?_⟩
  · unfold agenticSendMessageStream
    rw [if_neg hturns, if_neg hmsg]
    rcases env with ⟨ai, sched, reg, chs, rerr⟩
    rcases ai with e | p <;> dsimp only <;> split
    all_goals
      first
        | (simp [hsig]; done)
        | (cases chs with
           | nil =>
             cases rerr with
             | none => simp [agenticStreamLoop, hsig]
             | some e2 => simp [agenticStreamLoop, hsig]
           | cons c cs => simp [agenticStreamLoop, hsig])
  · intro p hp hno hlive
    unfold agenticSendMessageStream
    rw [if_neg hturns, if_neg hmsg]
    rcases env with ⟨ai, sched, reg, chs, rerr⟩
    simp only at hp hno hlive
    subst hp
    have hcond : (p.1 && !p.2.isEmpty) = false := by
      rcases hno with h | h
      · simp [h]
      · simp [h]
    dsimp only
    rw [if_neg (by simp [hcond])]
    cases chs with
    | nil =>
      rcases hlive with h | h
      · exact absurd rfl h
      · subst h
        simp [agenticStreamLoop, hsig]
    | cons c cs => simp [agenticStreamLoop, hsig]
  · intro p hp hno hchs hrerr
    unfold agenticSendMessageStream
    rw [if_neg hturns, if_neg hmsg]
    rcases env with ⟨ai, sched, reg, chs, rerr⟩
    simp only at hp hchs hrerr
    subst hp
    subst hchs
    have hcond : (p.1 && !p.2.isEmpty) = false := by
      rcases hno with h | h
      · simp [h]
      · simp [h]
    dsimp only
    rw [if_neg (by simp [hcond])]
    simp [agenticStreamLoop, hrerr]
  · intro p hp hp1 hp2
    unfold agenticSendMessageStream
    rw [if_neg hturns, if_neg hmsg]
    rcases env with ⟨ai, sched, reg, chs, rerr⟩
    simp only at hp
    subst hp
    dsimp only
    rw [if_pos (by simp [hp1, hp2])]

/-- C3 (witness): the amended statement evaluated at the message "hi" with an
always-aborted signal: the base client yields no event and keeps the user
turn; the agentic client, with a no-tools intent and a failing conversational
stream, also keeps exactly the user turn yet still yields the unguarded
canned fallback reply. -/
theorem stream_abort_keeps_user_turn_witness :
    sendMessageStreamClient [] (Request.single "hi") (fun _ => true) ["x"] 100 =
      ([], [userTurn "hi"]) ∧
    (agenticSendMessageStream [] (Request.single "hi") (fun _ => true) 100 "/w"
      { aiIntent := Except.ok (false, []), schedulerInit := true, registry := none,
        chunks := [], readError := some "boom" }).2 = [userTurn "hi"] ∧
    (agenticSendMessageStream [] (Request.single "hi") (fun _ => true) 100 "/w"
      { aiIntent := Except.ok (false, []), schedulerInit := true, registry := none,
        chunks := [], readError := some "boom" }).1 =
      [StreamEvent.content (localFallbackResponse "hi")] := by
  have hres := stream_abort_keeps_user_turn [] (Request.single "hi") (fun _ => true)
    ["x"] 100 "/w"
    { aiIntent := Except.ok (false, []), schedulerInit := true, registry := none,
      chunks := [], readError := some "boom" }
    (by decide) (by decide) rfl
  refine ⟨by simpa [flattenRequest] using hres.1,
    by simpa [flattenRequest] using hres.2.1, ?_⟩
  have hfall := hres.2.2.2.1 (false, []) rfl (Or.inl rfl) rfl rfl
  simpa [flattenRequest] using hfall

/-- C4: if opening the streamed connection or its first read fails (no line
was delivered), the stream turn falls back to the non-streaming send and, when
that succeeds, yields exactly one fragment equal to the full non-streaming
response text, surfacing no error to the caller. -/
theorem streamTurn_fallback_single_fragment (decode : String → Option DecodedLine)
    (e : String) (resp : String) :
    sendMessageStreamToThinkAI decode [] (some e) (Except.ok resp) =
      Except.ok [resp] := by
  simp [sendMessageStreamToThinkAI, processLines]

/-- C5 (counterexample): the claim fails as stated.  A `data: [DONE]` line
does not end the stream: the source merely `continue`s past it, so a
subsequent decodable line still yields its fragment, where the claim
predicts no further fragment. -/
theorem stream_parse_done_counterexample :
    processLines decodeSample ["data: [DONE]", "data: \x7b\"chunk\": \"x\"\x7d"] =
      (["x"], false) ∧ (["x"] : List String) ≠ [] := by
  decide

/-- C5 (amended): in stream-body parsing, for every decoder and every line, a
line not prefixed `data: ` produces no fragment and the stream continues; a
payload equal to `[DONE]` or the empty string is skipped with no fragment
and the stream continues; a payload that fails to decode is skipped without
ending the stream; a payload decoding to a record with `done=true` ends the
stream (the remaining lines are ignored) after yielding its truthy chunk, if
present. -/
theorem stream_parse_line_cases (decode : String → Option DecodedLine)
    (line : String) (rest : List String) :
    (jsStartsWith line "data: " = false →
      processLines decode (line :: rest) = processLines decode rest) ∧
    (jsStartsWith line "data: " = true →
      (jsTrim (jsDrop line 6) = "[DONE]" ∨ jsTrim (jsDrop line 6) = "") →
      processLines decode (line :: rest) = processLines decode rest) ∧
    (jsStartsWith line "data: " = true →
      ¬(jsTrim (jsDrop line 6) = "[DONE]" ∨ jsTrim (jsDrop line 6) = "") →
      decode (jsTrim (jsDrop line 6)) = none →
      processLines decode (line :: rest) = processLines decode rest) ∧
    (∀ d : DecodedLine, jsStartsWith line "data: " = true →
      ¬(jsTrim (jsDrop line 6) = "[DONE]" ∨ jsTrim (jsDrop line 6) = "") →
      decode (jsTrim (jsDrop line 6)) = some d → d.done = true →
      processLines decode (line :: rest) = (chunkYield d, true)) := by
  refine ⟨?_, ?_, ?_, ?_⟩
  · intro h1
    simp [processLines, h1]
  · intro h1 h2
    simp only [processLines, h1, if_true]
    rw [if_pos h2]
  · intro h1 h2 h3
    simp only [processLines, h1, if_true]
    rw [if_neg h2, h3]
  · intro d h1 h2 h3 h4
    simp only [processLines, h1, if_true]
    rw [if_neg h2, h3]
    simp [h4]

/-- C5 (witness): the amended line cases evaluated on a concrete non-data
line and a concrete `done=true` payload. -/
theorem stream_parse_line_cases_witness :
    processLines decodeSample
        ["nondata", "data: \x7b\"chunk\": \"y\", \"done\": true\x7d"] =
      processLines decodeSample ["data: \x7b\"chunk\": \"y\", \"done\": true\x7d"] ∧
    processLines decodeSample ["data: \x7b\"chunk\": \"y\", \"done\": true\x7d"] =
      (chunkYield { chunk := some "y", done := true }, true) := by
  constructor
  · exact (stream_parse_line_cases decodeSample "nondata"
      ["data: \x7b\"chunk\": \"y\", \"done\": true\x7d"]).1 (by decide)
  · exact (stream_parse_line_cases decodeSample
      "data: \x7b\"chunk\": \"y\", \"done\": true\x7d" []).2.2.2
      { chunk := some "y", done := true } (by decide) (by decide) (by decide) rfl

/-- C6: evaluation of the code at the failing input of the claim.  The
heuristic fallback takes only the utterance (no history), and on the bare
utterance "run it" it emits the fixed Node command `node server.js`, which
does not contain `go run` — contradicting the claim and the repository's own
tests, which expect `go run` after a Go-file creation in history. -/
theorem run_it_fallback_ignores_history :
    fallbackPatternMatching "run it" "/work" =
      (true, [{ name := some "run_shell_command",
                args := [("command", "node server.js")] }]) ∧
    jsIncludes "node server.js" "go run" = false := by
  decide

/-- C7: on the utterance "write a golang hello world server" the heuristic
fallback emits exactly one tool call, a `write_file` whose filename ends in
`.go` and whose content contains `package main` and `Hello World`, for every
working directory. -/
theorem golang_hello_world_write_file (wd : String) :
    fallbackPatternMatching "write a golang hello world server" wd =
      (true, [{ name := some "write_file",
                args := [("file_path", wd ++ "/" ++ "server.go"),
                         ("content", goTarget.content)] }]) ∧
    (∃ p, wd ++ "/" ++ "server.go" = p ++ ".go") ∧
    jsIncludes goTarget.content "package main" = true ∧
    jsIncludes goTarget.content "Hello World" = true := by
  refine ⟨rfl, ⟨wd ++ "/" ++ "server", ?_⟩, by decide, by decide⟩
  rw [String.append_assoc (wd ++ "/") "server" ".go"]
  congr 1

/-- C8: with the tool scheduler initialised, the executor produces exactly
one per-call section per plan entry, in submission order (the report list is
the map of the per-entry report over the plan, so a missing registry,
missing name, missing tool, thrown error or empty output each still
contribute exactly one section without aborting the rest), and the aggregate
report is their blank-line-separated concatenation. -/
theorem executor_one_section_per_entry
    (registry : Option (String → Option ToolFn)) (plan : List FunctionCall) :
    executeToolsLoop registry plan = plan.map (executeOneTool registry) ∧
    (executeToolsLoop registry plan).length = plan.length ∧
    executeLocalTools true registry plan =
      joinWith "\n\n" (plan.map (executeOneTool registry)) := by
  have hmap : ∀ pl : List FunctionCall,
      executeToolsLoop registry pl = pl.map (executeOneTool registry) := by
    intro pl
    induction pl with
    | nil => rfl
    | cons a as ih => simp [executeToolsLoop, ih]
  refine ⟨hmap plan, ?_, ?_⟩
  · rw [hmap plan, List.length_map]
  · simp [executeLocalTools, hmap plan]

/-- C9: the synchronous send path appends the user turn speculatively; on a
failing remote call the speculative user turn is removed so the history
equals its state before the turn while the error is propagated, and on a
successful call the user turn and the model turn are committed. -/
theorem send_message_atomic_rollback (hist : List Content) (msg : String)
    (e : String) (r : ThinkAIResp) :
    sendMessage hist msg (Except.error e) = (Except.error e, hist) ∧
    sendMessage hist msg (Except.ok r) =
      (Except.ok r, hist ++ [createUserContent msg, modelTurn r.response]) := by
  constructor
  · simp [sendMessage, List.getLast?_concat, createUserContent, userTurn,
      List.dropLast_concat]
  · simp [sendMessage]

/-- C10: for every request whose flattened text trims to the empty string,
both streaming entry points return immediately: zero events are yielded, the
history is unchanged, and the result does not depend on the transport
chunks, the signal or the environment (no network call or speculative append
is reached). -/
theorem empty_message_noop (hist : List Content) (req : Request)
    (signal : Nat → Bool) (chunks : List String) (turns : Nat)
    (workingDir : String) (env : AgenticEnv)
    (hmsg : jsTrim (flattenRequest req) = "") :
    sendMessageStreamClient hist req signal chunks turns = ([], hist) ∧
    agenticSendMessageStream hist req signal turns workingDir env = ([], hist) := by
  constructor
  · unfold sendMessageStreamClient
    by_cases ht : turns = 0
    · rw [if_pos ht]
    · rw [if_neg ht, if_pos hmsg]
  · unfold agenticSendMessageStream
    by_cases ht : turns = 0
    · rw [if_pos ht]
    · rw [if_neg ht, if_pos hmsg]

/-- C10 (witness): the no-op behaviour evaluated at the whitespace-only
request " " with a live transport chunk present. -/
theorem empty_message_noop_witness :
    sendMessageStreamClient [] (Request.single " ") (fun _ => false) ["a"] 100 = ([], []) ∧
    agenticSendMessageStream [] (Request.single " ") (fun _ => false) 100 "/w"
      { aiIntent := Except.error "down", schedulerInit := true, registry := none,
        chunks := [], readError := none } = ([], []) :=
  empty_message_noop [] (Request.single " ") (fun _ => false) ["a"] 100 "/w"
    { aiIntent := Except.error "down", schedulerInit := true, registry := none,
      chunks := [], readError := none } (by decide)
